import Mathlib

/-
  Verification of the godotaiide backend real-time synchronization and
  command bridge, as a shallow embedding in Lean 4.

  The embedding covers:
  * src/backend/routers/editor.py      - the command bridge (send_to_godot,
    clear_godot_connection, handle_godot_response) over module state
    (_godot_connection, _pending_requests, _request_counter)
  * src/backend/routers/websocket.py   - ConnectionManager (broadcast,
    send_message, disconnect)
  * src/backend/services/watcher_service.py  - CodeFileHandler pending-change
    bookkeeping (_add_pending_change) and the 100 ms debounce polling loop
    (_process_pending_changes), plus FileWatcherService.stop_watching
  * src/backend/services/git_watcher_service.py - GitChangeHandler debounce
    state machine (on_any_event, _debounced_broadcast, cancel) and
    GitWatcherService.stop_watching
  * src/backend/services/session_manager.py  - SessionManager

  Python dicts are modelled as association lists with distinct keys,
  asyncio futures as an explicit status type, wall-clock time as Nat
  (milliseconds where sub-second granularity matters, otherwise seconds),
  and payload values (GitStatusResponse objects, response dicts,
  websocket handles) as opaque naturals, since no covered code path
  inspects their contents.
-/

namespace GodotBackend

/-! ## Command bridge (src/backend/routers/editor.py)

Module state of editor.py: `_godot_connection` (an optional websocket
handle), `_pending_requests : dict[str, asyncio.Future]` and
`_request_counter` with its modulus `_MAX_REQUEST_COUNTER`.  An
`asyncio.Future` is modelled by its externally observable status:
still unresolved, resolved with a value, or cancelled. -/

/-- The response payload a resolved future carries (an arbitrary dict in
the source); modelled as an abstract value. -/
abbrev GodotResult := Nat

/-- Observable status of an `asyncio.Future` held in `_pending_requests`. -/
inductive FutureStatus where
  | pendingFut
  | doneWith (v : GodotResult)
  | cancelledFut
deriving DecidableEq, Repr

/-- `fastapi.HTTPException` as raised by editor.py: a status code plus detail. -/
structure HTTPErr where
  status : Nat
  detail : String
deriving DecidableEq, Repr

/-- `HTTPException(status_code=503, detail="Godot not connected")`. -/
def errNotConnected : HTTPErr := ⟨503, "Godot not connected"⟩

/-- `HTTPException(status_code=504, detail="Godot request timed out")`. -/
def errTimedOut : HTTPErr := ⟨504, "Godot request timed out"⟩

/-- `HTTPException(status_code=503, detail="Request cancelled - Godot disconnected")`. -/
def errCancelledDisconnect : HTTPErr := ⟨503, "Request cancelled - Godot disconnected"⟩

/-- `_MAX_REQUEST_COUNTER = 1_000_000` in editor.py. -/
def MAX_REQUEST_COUNTER : Nat := 1000000

/-- Module-level state of editor.py.  The websocket handle is opaque. -/
structure EditorState where
  godot_connection : Option Nat
  pending_requests : List (String × FutureStatus)
  request_counter : Nat
deriving DecidableEq, Repr

/-- What cancelling a future (`future.cancel()` guarded by
`if not future.done()`) does to its status. -/
def cancelFuture : FutureStatus → FutureStatus
  | .pendingFut => .cancelledFut
  | f => f

/-- `clear_godot_connection()`: drops the connection, cancels every
not-yet-done pending future, and clears `_pending_requests`.  The second
component records the futures as the coroutines still awaiting them
observe them after the call (the map is cleared, but each `send_to_godot`
call holds its own reference to its future). -/
def clear_godot_connection (s : EditorState) :
    EditorState × List (String × FutureStatus) :=
  ({ godot_connection := none
     pending_requests := []
     request_counter := s.request_counter },
   s.pending_requests.map (fun p => (p.1, cancelFuture p.2)))

/-- How `await asyncio.wait_for(future, timeout)` together with the
`except` clauses of `send_to_godot` turns the terminal status of the
awaited future into the caller-visible outcome: a future never resolved
within the deadline raises `asyncio.TimeoutError` (mapped to 504), a
cancelled future raises `asyncio.CancelledError` (mapped to 503
"Request cancelled - Godot disconnected"), a fulfilled future yields its
value. -/
def awaitResolution : FutureStatus → Except HTTPErr GodotResult
  | .pendingFut => .error errTimedOut
  | .doneWith v => .ok v
  | .cancelledFut => .error errCancelledDisconnect

/-- The request id `send_to_godot` will mint from the current state:
`f"req_{(_request_counter + 1) % _MAX_REQUEST_COUNTER}"`. -/
def nextRequestId (s : EditorState) : String :=
  "req_" ++ toString ((s.request_counter + 1) % MAX_REQUEST_COUNTER)

/-- `_pending_requests.get(request_id)` on a state. -/
def lookupRequest (s : EditorState) (rid : String) : Option (String × FutureStatus) :=
  s.pending_requests.find? (fun p => decide (p.1 = rid))

/-- `send_to_godot(action, data, timeout)`.  The argument `fut_final` is
the terminal status the freshly created future has reached when the
`await` returns (supplied by the environment: a matching response, the
deadline expiring, or a disconnect cancellation).  If no host is
attached the call raises 503 before touching any state.  Otherwise the
counter is advanced modulo `_MAX_REQUEST_COUNTER`, the future is
registered under the minted id (a dict assignment, so any stale entry
under the same id is overwritten), the await resolves according to
`fut_final`, and the `finally` block pops the id from the map. -/
def send_to_godot (s : EditorState) (fut_final : FutureStatus) :
    EditorState × Except HTTPErr GodotResult :=
  match s.godot_connection with
  | none => (s, .error errNotConnected)
  | some _ =>
    let counter := (s.request_counter + 1) % MAX_REQUEST_COUNTER
    let rid := "req_" ++ toString counter
    let registered :=
      s.pending_requests.filter (fun p => !(decide (p.1 = rid))) ++
        [(rid, FutureStatus.pendingFut)]
    let afterAwait := registered.filter (fun p => !(decide (p.1 = rid)))
    ({ godot_connection := s.godot_connection
       pending_requests := afterAwait
       request_counter := counter },
     awaitResolution fut_final)

/-- `handle_godot_response(request_id, result)`: fulfills the pending
future if one exists under that id and is not done; otherwise drops the
message. -/
def handle_godot_response (s : EditorState) (rid : String) (result : GodotResult) :
    EditorState :=
  match lookupRequest s rid with
  | some (_, FutureStatus.pendingFut) =>
    { s with pending_requests := s.pending_requests.map (fun p => if p.1 = rid then (p.1, FutureStatus.doneWith result) else p) }
  | _ => s

/-! ### C1, C2, C4 -/

/-- C1: when the host disconnects, `clear_godot_connection` empties the
pending-request map (its size becomes 0) and every previously pending
(unresolved) future is cancelled, so the `send_to_godot` call awaiting it
resolves with the distinct "Request cancelled - Godot disconnected"
outcome, which differs from the timeout outcome. -/
theorem clear_godot_connection_cancels_all (s : EditorState) :
    (clear_godot_connection s).1.pending_requests.length = 0 ∧
    (clear_godot_connection s).1.godot_connection = none ∧
    (∀ rid fut, (rid, fut) ∈ s.pending_requests → fut = FutureStatus.pendingFut →
      (rid, FutureStatus.cancelledFut) ∈ (clear_godot_connection s).2 ∧
      awaitResolution FutureStatus.cancelledFut = .error errCancelledDisconnect ∧
      errCancelledDisconnect ≠ errTimedOut) := by
  refine ⟨rfl, rfl, ?_⟩
  intro rid fut hmem hfut
  refine ⟨?_, rfl, by decide⟩
  have : (rid, FutureStatus.cancelledFut) =
      (fun p : String × FutureStatus => (p.1, cancelFuture p.2)) (rid, fut) := by
    subst hfut; rfl
  rw [this]
  exact List.mem_map_of_mem _ hmem

/-- Witness for C1 on a concrete state with one pending request. -/
theorem clear_godot_connection_cancels_all_witness :
    ("req_1", FutureStatus.cancelledFut) ∈
      (clear_godot_connection
        ⟨some 0, [("req_1", FutureStatus.pendingFut)], 1⟩).2 ∧
    awaitResolution FutureStatus.cancelledFut = .error errCancelledDisconnect ∧
    errCancelledDisconnect ≠ errTimedOut := by
  exact (clear_godot_connection_cancels_all
    ⟨some 0, [("req_1", FutureStatus.pendingFut)], 1⟩).2.2
    "req_1" FutureStatus.pendingFut (by simp) rfl

/-- C2: a `send_to_godot` call made while no host connection is attached
fails immediately with the 503 "Godot not connected" condition and
leaves the whole module state - in particular the pending-request map -
unchanged. -/
theorem send_no_host_fails_fast (s : EditorState) (fut : FutureStatus)
    (h : s.godot_connection = none) :
    send_to_godot s fut = (s, .error errNotConnected) ∧
    (send_to_godot s fut).1.pending_requests = s.pending_requests ∧
    errNotConnected.status = 503 := by
  have hs : send_to_godot s fut = (s, .error errNotConnected) := by
    unfold send_to_godot
    rw [h]
  exact ⟨hs, by rw [hs], rfl⟩

/-- Witness for C2 on a concrete detached state. -/
theorem send_no_host_fails_fast_witness :
    send_to_godot ⟨none, [("req_7", FutureStatus.pendingFut)], 7⟩
        FutureStatus.pendingFut =
      (⟨none, [("req_7", FutureStatus.pendingFut)], 7⟩, .error errNotConnected) ∧
    (send_to_godot ⟨none, [("req_7", FutureStatus.pendingFut)], 7⟩
        FutureStatus.pendingFut).1.pending_requests =
      [("req_7", FutureStatus.pendingFut)] ∧
    errNotConnected.status = 503 :=
  send_no_host_fails_fast ⟨none, [("req_7", FutureStatus.pendingFut)], 7⟩
    FutureStatus.pendingFut rfl

/-- C4: with a host attached, a `send_to_godot` call removes the entry
for its correlation id from the pending map whatever the outcome of the
await; a timed-out call yields the distinct 504 "Godot request timed
out" condition (different from both 503 conditions); a call whose future
was fulfilled yields exactly the supplied value; and
`handle_godot_response` is what fulfills a pending future with that
value. -/
theorem send_removes_pending_entry (s : EditorState) (ws : Nat)
    (hconn : s.godot_connection = some ws) (fut : FutureStatus) (v : GodotResult) :
    lookupRequest (send_to_godot s fut).1 (nextRequestId s) = none ∧
    (send_to_godot s FutureStatus.pendingFut).2 = .error errTimedOut ∧
    errTimedOut.status = 504 ∧ errTimedOut ≠ errCancelledDisconnect ∧
    errTimedOut ≠ errNotConnected ∧
    (send_to_godot s (FutureStatus.doneWith v)).2 = .ok v ∧
    (∀ (s' : EditorState) (rid : String),
      lookupRequest s' rid = some (rid, FutureStatus.pendingFut) →
      lookupRequest (handle_godot_response s' rid v) rid =
        some (rid, FutureStatus.doneWith v)) := by
  refine ⟨?_, ?_, rfl, by decide, by decide, ?_, ?_⟩
  · unfold send_to_godot
    rw [hconn]
    simp only [lookupRequest, nextRequestId]
    rw [List.find?_eq_none]
    intro p hp
    have := (List.mem_filter.mp hp).2
    simp only [Bool.not_eq_true', decide_eq_false_iff_not] at this
    simpa using this
  · unfold send_to_godot
    rw [hconn]
    rfl
  · unfold send_to_godot
    rw [hconn]
    rfl
  · intro s' rid hfind
    have hred : handle_godot_response s' rid v =
        { s' with pending_requests := s'.pending_requests.map (fun p => if p.1 = rid then (p.1, FutureStatus.doneWith v) else p) } := by
      unfold handle_godot_response
      rw [hfind]
    rw [hred]
    show (s'.pending_requests.map
        (fun p => if p.1 = rid then (p.1, FutureStatus.doneWith v) else p)).find?
        (fun p => decide (p.1 = rid)) = some (rid, FutureStatus.doneWith v)
    rw [List.find?_map]
    have hp : ((fun p : String × FutureStatus => decide (p.1 = rid)) ∘
        (fun p : String × FutureStatus =>
          if p.1 = rid then (p.1, FutureStatus.doneWith v) else p)) =
        fun p : String × FutureStatus => decide (p.1 = rid) := by
      funext q
      by_cases h : q.1 = rid <;> simp [h]
    rw [hp]
    have hf : s'.pending_requests.find? (fun p => decide (p.1 = rid)) =
        some (rid, FutureStatus.pendingFut) := hfind
    rw [hf]
    simp

/-- Witness for C4 on a concrete attached state. -/
theorem send_removes_pending_entry_witness :
    lookupRequest (send_to_godot ⟨some 3, [], 0⟩ FutureStatus.pendingFut).1
        (nextRequestId ⟨some 3, [], 0⟩) = none ∧
    (send_to_godot ⟨some 3, [], 0⟩ FutureStatus.pendingFut).2 =
      .error errTimedOut :=
  ⟨(send_removes_pending_entry ⟨some 3, [], 0⟩ 3 rfl FutureStatus.pendingFut 0).1,
   (send_removes_pending_entry ⟨some 3, [], 0⟩ 3 rfl FutureStatus.pendingFut 0).2.1⟩

/-! ## ConnectionManager (src/backend/routers/websocket.py)

`ConnectionManager` keeps a set of active websocket connections and a
last-seen timestamp per connection.  Connections are identified by an
abstract handle.  `broadcast` iterates over a copy of the active set and
runs `send_message` for each connection; the sends are independent
(each touches only its own connection's entries), so the concurrent
`asyncio.gather` is modelled as a left-to-right traversal of the
snapshot.  `send_message` catches `WebSocketDisconnect` and any other
exception of `websocket.send_json`, removing the failing connection
instead of propagating the error; the underlying channel's behaviour is
supplied by the environment as an `Except` result per connection. -/

/-- A websocket handle. -/
abbrev WS := Nat

structure ConnectionManager where
  active_connections : List WS
  connection_last_seen : List (WS × Nat)
deriving DecidableEq, Repr

namespace ConnectionManager

/-- `disconnect(websocket)`: discards the connection from the active set
and drops its last-seen entry. -/
def disconnect (m : ConnectionManager) (ws : WS) : ConnectionManager :=
  { active_connections := m.active_connections.filter (fun w => !(decide (w = ws)))
    connection_last_seen := m.connection_last_seen.filter (fun p => !(decide (p.1 = ws))) }

/-- `update_last_seen(websocket)`: stamps the connection with the current time. -/
def update_last_seen (m : ConnectionManager) (ws : WS) (now : Nat) : ConnectionManager :=
  { m with connection_last_seen := m.connection_last_seen.filter (fun p => !(decide (p.1 = ws))) ++ [(ws, now)] }

/-- `send_message(websocket, message)`: on a successful `send_json` the
liveness stamp is updated; on any exception the connection is removed.
The Bool reports whether the message was delivered; no exception ever
escapes to the caller. -/
def send_message (m : ConnectionManager) (ws : WS) (sendRes : Except String Unit)
    (now : Nat) : ConnectionManager × Bool :=
  match sendRes with
  | .ok _ => (update_last_seen m ws now, true)
  | .error _ => (disconnect m ws, false)

/-- The loop body of `broadcast`: deliver to each connection of the
snapshot in turn, threading the manager state; collect the connections
that received the message. -/
def broadcastGo (conns : List WS) (m : ConnectionManager)
    (sendRes : WS → Except String Unit) (now : Nat) : ConnectionManager × List WS :=
  match conns with
  | [] => (m, [])
  | ws :: rest =>
    let step := send_message m ws (sendRes ws) now
    let tail := broadcastGo rest step.1 sendRes now
    (tail.1, (if step.2 then [ws] else []) ++ tail.2)

/-- `broadcast(message)`: returns early when there is no connection,
otherwise sends to every connection of a copy of the active set. -/
def broadcast (m : ConnectionManager) (sendRes : WS → Except String Unit)
    (now : Nat) : ConnectionManager × List WS :=
  if m.active_connections.isEmpty then (m, [])
  else broadcastGo m.active_connections m sendRes now

end ConnectionManager

/-- Whether a channel send succeeded. -/
def sendOkB : Except String Unit → Bool
  | .ok _ => true
  | .error _ => false

/-- The delivered list of the broadcast loop depends only on the
per-connection send results, not on the threaded manager state. -/
theorem broadcastGo_delivered (conns : List WS) (m : ConnectionManager)
    (sendRes : WS → Except String Unit) (now : Nat) :
    (ConnectionManager.broadcastGo conns m sendRes now).2 =
      conns.filter (fun w => sendOkB (sendRes w)) := by
  induction conns generalizing m with
  | nil => rfl
  | cons ws rest ih =>
    simp only [ConnectionManager.broadcastGo, List.filter_cons]
    cases h : sendRes ws with
    | ok u => simp [ConnectionManager.send_message, h, sendOkB, ih]
    | error e => simp [ConnectionManager.send_message, h, sendOkB, ih]

/-- Predicate for surviving the broadcast loop: a connection stays
active if its own send succeeded or it was not in the iterated snapshot. -/
def keepAfter (conns : List WS) (sendRes : WS → Except String Unit) (w : WS) : Bool :=
  sendOkB (sendRes w) || !(decide (w ∈ conns))

/-- Effect of the broadcast loop on the active set: exactly the
connections whose own send failed are removed. -/
theorem broadcastGo_active (conns : List WS) (m : ConnectionManager)
    (sendRes : WS → Except String Unit) (now : Nat) :
    (ConnectionManager.broadcastGo conns m sendRes now).1.active_connections =
      m.active_connections.filter (keepAfter conns sendRes) := by
  induction conns generalizing m with
  | nil =>
    simp only [ConnectionManager.broadcastGo]
    rw [List.filter_eq_self.mpr]
    intro a _
    simp [keepAfter]
  | cons ws rest ih =>
    simp only [ConnectionManager.broadcastGo]
    cases h : sendRes ws with
    | ok u =>
      simp only [ConnectionManager.send_message, h]
      rw [ih]
      show m.active_connections.filter (keepAfter rest sendRes) =
        m.active_connections.filter (keepAfter (ws :: rest) sendRes)
      apply List.filter_congr
      intro w _
      by_cases hw : w = ws
      · subst hw
        simp [keepAfter, sendOkB, h]
      · simp [keepAfter, List.mem_cons, hw]
    | error e =>
      simp only [ConnectionManager.send_message, h]
      rw [ih]
      show (m.active_connections.filter fun w => !(decide (w = ws))).filter
          (keepAfter rest sendRes) =
        m.active_connections.filter (keepAfter (ws :: rest) sendRes)
      rw [List.filter_filter]
      apply List.filter_congr
      intro w _
      by_cases hw : w = ws
      · subst hw
        simp [keepAfter, sendOkB, h]
      · simp [keepAfter, List.mem_cons, hw]

/-- Removing one element present in a duplicate-free list shortens it by
exactly one. -/
theorem length_filter_ne_of_nodup (l : List Nat) (c : Nat) (hnd : l.Nodup)
    (hc : c ∈ l) :
    (l.filter (fun w => !(decide (w = c)))).length + 1 = l.length := by
  induction l with
  | nil => cases hc
  | cons a t ih =>
    have hat : a ∉ t := (List.nodup_cons.mp hnd).1
    have hndt : t.Nodup := (List.nodup_cons.mp hnd).2
    rcases List.mem_cons.mp hc with hca | hct
    · have hct' : c ∉ t := by rw [hca]; exact hat
      have hfilter : t.filter (fun w => !(decide (w = c))) = t := by
        apply List.filter_eq_self.mpr
        intro b hb
        simp only [Bool.not_eq_true', decide_eq_false_iff_not]
        exact fun hbc => hct' (hbc ▸ hb)
      have hhead : (decide (a = c)) = true := decide_eq_true hca.symm
      simp [List.filter_cons, hhead, hfilter]
    · have hac : ¬(a = c) := fun h => hat (h ▸ hct)
      simp only [List.filter_cons, hac, decide_eq_false hac, Bool.not_false,
        if_true, List.length_cons]
      rw [← ih hndt hct]
      simp [Nat.add_comm, Nat.add_assoc]

/-- C5: a broadcast over the registered connections in which exactly one
connection's channel fails delivers the message to every other
connection, removes the failing connection from the active set, and
returns normally (the model is a total function: the failure is caught
inside `send_message` and never surfaces). -/
theorem broadcast_one_failure (m : ConnectionManager)
    (sendRes : WS → Except String Unit) (c : WS) (now : Nat)
    (hnd : m.active_connections.Nodup)
    (hc : c ∈ m.active_connections)
    (hfail : ∀ w ∈ m.active_connections, (sendOkB (sendRes w) = false ↔ w = c)) :
    (ConnectionManager.broadcast m sendRes now).2 =
      m.active_connections.filter (fun w => !(decide (w = c))) ∧
    (ConnectionManager.broadcast m sendRes now).2.length + 1 =
      m.active_connections.length ∧
    (ConnectionManager.broadcast m sendRes now).1.active_connections =
      m.active_connections.filter (fun w => !(decide (w = c))) ∧
    c ∉ (ConnectionManager.broadcast m sendRes now).1.active_connections := by
  have hne : m.active_connections.isEmpty = false := by
    cases hAc : m.active_connections with
    | nil => rw [hAc] at hc; cases hc
    | cons a t => rfl
  have hb : ConnectionManager.broadcast m sendRes now =
      ConnectionManager.broadcastGo m.active_connections m sendRes now := by
    unfold ConnectionManager.broadcast
    rw [hne]
    rfl
  have hpt : ∀ w ∈ m.active_connections,
      (fun w => sendOkB (sendRes w)) w = (fun w => !(decide (w = c))) w := by
    intro w hw
    have hiff := hfail w hw
    show sendOkB (sendRes w) = !(decide (w = c))
    by_cases hwc : w = c
    · rw [hiff.mpr hwc, hwc]
      simp
    · rw [decide_eq_false hwc, Bool.not_false]
      cases hok : sendOkB (sendRes w)
      · exact absurd (hiff.mp hok) hwc
      · rfl
  have hdel : (ConnectionManager.broadcast m sendRes now).2 =
      m.active_connections.filter (fun w => !(decide (w = c))) := by
    rw [hb, broadcastGo_delivered]
    exact List.filter_congr hpt
  have hact : (ConnectionManager.broadcast m sendRes now).1.active_connections =
      m.active_connections.filter (fun w => !(decide (w = c))) := by
    rw [hb, broadcastGo_active]
    apply List.filter_congr
    intro w hw
    have : decide (w ∈ m.active_connections) = true := decide_eq_true hw
    simp only [keepAfter, this, Bool.not_true, Bool.or_false]
    exact hpt w hw
  refine ⟨hdel, ?_, hact, ?_⟩
  · rw [hdel]
    exact length_filter_ne_of_nodup _ c hnd hc
  · rw [hact]
    simp [List.mem_filter]

/-- Witness for C5: three connections, the channel of connection 2 is
already closed; the other two receive the message and 2 is removed. -/
theorem broadcast_one_failure_witness :
    (ConnectionManager.broadcast ⟨[1, 2, 3], []⟩
        (fun w => if w = 2 then .error "closed" else .ok ()) 0).2 = [1, 3] ∧
    (ConnectionManager.broadcast ⟨[1, 2, 3], []⟩
        (fun w => if w = 2 then .error "closed" else .ok ()) 0).2.length + 1 = 3 ∧
    2 ∉ (ConnectionManager.broadcast ⟨[1, 2, 3], []⟩
        (fun w => if w = 2 then .error "closed" else .ok ()) 0).1.active_connections := by
  have h := broadcast_one_failure ⟨[1, 2, 3], []⟩
    (fun w => if w = 2 then .error "closed" else .ok ()) 2 0
    (by decide) (by decide) (by decide)
  exact ⟨h.1.trans (by decide), h.2.1, h.2.2.2⟩

/-! ## Code file watcher (src/backend/services/watcher_service.py)

`CodeFileHandler` keeps `pending_changes : OrderedDict[str, float]`,
mapping a file path to the time of its last relevant event, bounded by
`max_pending = 1000`.  The insertion order of the OrderedDict is the
update-recency order: an existing key is moved to the end
(`move_to_end`) and restamped, a new key is appended, and on overflow
`popitem(last=False)` evicts the front entry.  The map is modelled as an
insertion-ordered association list. -/

/-- `self.max_pending = 1000` in `CodeFileHandler.__init__`. -/
def max_pending : Nat := 1000

/-- `CodeFileHandler._add_pending_change(file_path)` with an explicit
capacity: move-to-end restamp for a known path, append for a new path,
then pop the front entry if the map now exceeds the capacity. -/
def add_pending_change_bounded (maxP : Nat) (pc : List (String × Nat))
    (fp : String) (now : Nat) : List (String × Nat) :=
  if pc.any (fun p => decide (p.1 = fp)) then
    pc.filter (fun p => !(decide (p.1 = fp))) ++ [(fp, now)]
  else
    let pc1 := pc ++ [(fp, now)]
    if maxP < pc1.length then pc1.drop 1 else pc1

/-- `_add_pending_change` at the configured capacity of 1000. -/
def add_pending_change (pc : List (String × Nat)) (fp : String) (now : Nat) :
    List (String × Nat) :=
  add_pending_change_bounded max_pending pc fp now

/-- Filtering a keyed list on "key differs from c" removes exactly one
entry when the keys are duplicate-free and c is present. -/
theorem length_filter_keyne_of_nodup {α β : Type} [DecidableEq α]
    (l : List (α × β)) (c : α) (hnd : (l.map Prod.fst).Nodup)
    (hc : ∃ e ∈ l, e.1 = c) :
    (l.filter (fun p => !(decide (p.1 = c)))).length + 1 = l.length := by
  induction l with
  | nil => obtain ⟨e, he, _⟩ := hc; cases he
  | cons a t ih =>
    have hat : a.1 ∉ t.map Prod.fst := (List.nodup_cons.mp hnd).1
    have hndt : (t.map Prod.fst).Nodup := (List.nodup_cons.mp hnd).2
    obtain ⟨e, he, hec⟩ := hc
    rcases List.mem_cons.mp he with rfl | het
    · have hkey : (decide (e.1 = c)) = true := decide_eq_true hec
      rw [List.filter_cons_of_neg (by simp [hkey])]
      have hfilter : t.filter (fun p => !(decide (p.1 = c))) = t := by
        apply List.filter_eq_self.mpr
        intro b hb
        simp only [Bool.not_eq_true', decide_eq_false_iff_not]
        intro hbc
        exact hat (hec ▸ hbc ▸ List.mem_map_of_mem Prod.fst hb)
      rw [hfilter]
      simp
    · have hac : ¬(a.1 = c) := by
        intro h
        exact hat (h ▸ hec ▸ List.mem_map_of_mem Prod.fst het)
      rw [List.filter_cons_of_pos (by simp [hac])]
      simp only [List.length_cons]
      rw [← ih hndt ⟨e, het, hec⟩]

/-- Filtering drops at least one element when some list member fails the
predicate. -/
theorem length_filter_lt_of_mem {α : Type} (l : List α) (p : α → Bool) (a : α)
    (ha : a ∈ l) (hpa : p a = false) :
    (l.filter p).length < l.length := by
  induction l with
  | nil => cases ha
  | cons b t ih =>
    rcases List.mem_cons.mp ha with rfl | hat
    · rw [List.filter_cons_of_neg (by simp [hpa])]
      have := List.length_filter_le p t
      simp only [List.length_cons]
      omega
    · cases hpb : p b
      · rw [List.filter_cons_of_neg (by simp [hpb])]
        have := ih hat
        simp only [List.length_cons]
        omega
      · rw [List.filter_cons_of_pos (by simp [hpb])]
        have := ih hat
        simp only [List.length_cons]
        omega

/-- C7: the pending-change map never exceeds its capacity of 1000:
an update to a known path keeps the size unchanged (move-to-end restamp,
no duplicate); when inserting a new path into a full map, the evicted
entry is the front one - which, in the update-recency order the map
maintains (timestamps nondecreasing front to back), carries the least
recent update time, no later than the time of every surviving entry -
and the recency order is maintained by every call. -/
theorem add_pending_change_bounded_lru (pc : List (String × Nat))
    (fp : String) (now : Nat) (hnd : (pc.map Prod.fst).Nodup) :
    (pc.length ≤ max_pending → (add_pending_change pc fp now).length ≤ max_pending) ∧
    ((∃ e ∈ pc, e.1 = fp) → (add_pending_change pc fp now).length = pc.length) ∧
    (pc.length = max_pending → (∀ e ∈ pc, ¬(e.1 = fp)) →
      pc.Pairwise (fun a b => a.2 ≤ b.2) → (∀ e ∈ pc, e.2 ≤ now) →
      add_pending_change pc fp now = (pc ++ [(fp, now)]).drop 1 ∧
      (∀ e, pc.head? = some e →
        ∀ q ∈ add_pending_change pc fp now, e.2 ≤ q.2)) ∧
    (pc.Pairwise (fun a b => a.2 ≤ b.2) → (∀ e ∈ pc, e.2 ≤ now) →
      (add_pending_change pc fp now).Pairwise (fun a b => a.2 ≤ b.2)) := by
  unfold add_pending_change add_pending_change_bounded
  by_cases hmem : ∃ e ∈ pc, e.1 = fp
  · have hany : pc.any (fun p => decide (p.1 = fp)) = true := by
      rw [List.any_eq_true]
      obtain ⟨e, he, hec⟩ := hmem
      exact ⟨e, he, decide_eq_true hec⟩
    rw [if_pos hany]
    have hlen : (pc.filter (fun p => !(decide (p.1 = fp)))).length + 1 = pc.length :=
      length_filter_keyne_of_nodup pc fp hnd hmem
    refine ⟨?_, ?_, ?_, ?_⟩
    · intro hcap
      rw [List.length_append, List.length_singleton, hlen]
      exact hcap
    · intro _
      rw [List.length_append, List.length_singleton, hlen]
    · intro _ hno
      obtain ⟨e, he, hec⟩ := hmem
      exact absurd hec (hno e he)
    · intro hmono hnow
      rw [List.pairwise_append]
      refine ⟨hmono.sublist (List.filter_sublist pc), List.pairwise_singleton _ _, ?_⟩
      intro a ha b hb
      rw [List.mem_singleton.mp hb]
      exact hnow a (List.mem_of_mem_filter ha)
  · have hany : pc.any (fun p => decide (p.1 = fp)) = false := by
      rw [← Bool.not_eq_true, List.any_eq_true]
      intro ⟨e, he, hec⟩
      exact hmem ⟨e, he, of_decide_eq_true hec⟩
    rw [if_neg (by simp [hany])]
    have hl1 : (pc ++ [(fp, now)]).length = pc.length + 1 := by
      rw [List.length_append, List.length_singleton]
    refine ⟨?_, ?_, ?_, ?_⟩
    · intro hcap
      by_cases hover : max_pending < (pc ++ [(fp, now)]).length
      · rw [if_pos hover, List.length_drop, hl1]
        omega
      · rw [if_neg hover]
        omega
    · intro hex
      exact absurd hex hmem
    · intro hfull _ hmono hnow
      have hover : max_pending < (pc ++ [(fp, now)]).length := by
        rw [hl1, hfull]
        omega
      rw [if_pos hover]
      refine ⟨rfl, ?_⟩
      intro e hhead q hq
      rcases pc with _ | ⟨h, t⟩
      · exact absurd hhead (by simp)
      · simp only [List.head?_cons, Option.some.injEq] at hhead
        have hq' : q ∈ t ++ [(fp, now)] := hq
        rcases List.mem_append.mp hq' with hqt | hqx
        · rw [← hhead]
          exact (List.pairwise_cons.mp hmono).1 q hqt
        · rw [← hhead, List.mem_singleton.mp hqx]
          exact hnow h (List.mem_cons_self h t)
    · intro hmono hnow
      have hpw : (pc ++ [(fp, now)]).Pairwise (fun a b => a.2 ≤ b.2) := by
        rw [List.pairwise_append]
        refine ⟨hmono, List.pairwise_singleton _ _, ?_⟩
        intro a ha b hb
        rw [List.mem_singleton.mp hb]
        exact hnow a ha
      by_cases hover : max_pending < (pc ++ [(fp, now)]).length
      · rw [if_pos hover]
        exact hpw.sublist (List.drop_sublist 1 _)
      · rw [if_neg hover]
        exact hpw

/-- Witness for C7 on a small concrete pending map. -/
theorem add_pending_change_bounded_lru_witness :
    (add_pending_change [("a", 1), ("b", 2)] "c" 5).length ≤ max_pending ∧
    (add_pending_change [("a", 1), ("b", 2)] "c" 5).Pairwise
      (fun a b => a.2 ≤ b.2) := by
  have h := add_pending_change_bounded_lru [("a", 1), ("b", 2)] "c" 5 (by decide)
  exact ⟨h.1 (by decide), h.2.2.2 (by decide) (by decide)⟩

/-! ### Debounce polling loop of CodeFileHandler

`_process_pending_changes` runs on the processor thread: while changes
are pending it sleeps 100 ms between passes, and on each pass removes
and processes (reindex + one `file_indexed` broadcast per file) every
pending entry whose last event is at least `debounce_seconds` old.
Times are modelled in milliseconds; the quiet period of 0.5 s is 500. -/

/-- One pass of the polling loop at time `now`: split the pending map
into the entries processed on this pass (at least `Q` old, each removed
and emitted as its own per-file settle) and the ones kept. -/
def processTick (Q now : Nat) (pc : List (String × Nat)) :
    List (String × Nat) × List String :=
  (pc.filter (fun p => !(decide (Q ≤ now - p.2))),
   (pc.filter (fun p => decide (Q ≤ now - p.2))).map Prod.fst)

/-- Timed run of the polling loop: at each tick, first record the
events that have arrived by then through `_add_pending_change`, then
run one pass; emits one (tick time, file path) pair per processed file. -/
def codeSimGo (Q : Nat) (ticks : List Nat) (events : List (Nat × String))
    (pc : List (String × Nat)) : List (Nat × String) :=
  match ticks with
  | [] => []
  | t :: rest =>
    let evNow := events.filter (fun e => decide (e.1 ≤ t))
    let evLater := events.filter (fun e => !(decide (e.1 ≤ t)))
    let pc1 := evNow.foldl (fun acc e => add_pending_change acc e.2 e.1) pc
    let step := processTick Q t pc1
    step.2.map (fun f => (t, f)) ++ codeSimGo Q rest evLater step.1

/-- Tick times of the processor thread: one pass every `step` ms up to
`horizon` (the loop sleeps 0.1 s between passes while changes are
pending). -/
def codeTicks (step horizon : Nat) : List Nat :=
  (List.range (horizon / step + 1)).map (fun i => i * step)

/-- Debounce behaviour of `CodeFileHandler` with quiet period `Q` ms and
polling interval `step` ms over timed (event time, file path) inputs,
starting from an empty pending map. -/
def codeSim (Q step horizon : Nat) (events : List (Nat × String)) :
    List (Nat × String) :=
  codeSimGo Q (codeTicks step horizon) events []

/-! ## Git status watcher (src/backend/services/git_watcher_service.py) -/

/-- Debounce state of `GitChangeHandler`: the stored last-change time,
the pending-broadcast flag, the stopped flag set by `cancel()`, and the
wake time of the in-flight `_debounced_broadcast` task if one is
scheduled and not yet done.  There is one such state per watched
repository root; file identity is not part of it. -/
structure GitHandlerState where
  last_change_time : Nat
  pending_broadcast : Bool
  stopped : Bool
  task_wake : Option Nat
deriving DecidableEq, Repr

/-- Freshly constructed `GitChangeHandler`. -/
def gitHandlerInit : GitHandlerState := ⟨0, false, false, none⟩

/-- `GitChangeHandler.on_any_event` for a relevant (non-directory,
filter-passing) event at time `t`, with the broadcast callback and loop
set: record `t` as the last change time, raise the pending flag, and
schedule a `_debounced_broadcast` task that wakes a full debounce
period later - unless a task is already in flight, which is left as is. -/
def git_on_any_event (Q t : Nat) (s : GitHandlerState) : GitHandlerState :=
  if s.stopped then s
  else
    { last_change_time := t
      pending_broadcast := true
      stopped := s.stopped
      task_wake := some (match s.task_wake with | none => t + Q | some w => w) }

/-- The body of `_debounced_broadcast` when its sleep ends at time `w`:
if stopped or no longer pending, the task just finishes; if less than a
quiet period has elapsed since the last change, it reschedules another
full `asyncio.sleep(debounce_seconds)`; otherwise it clears the pending
flag and broadcasts the git status now (the emitted time). -/
def git_debounce_wake (Q w : Nat) (s : GitHandlerState) :
    GitHandlerState × Option Nat :=
  if s.stopped || !s.pending_broadcast then
    ({ s with task_wake := none }, none)
  else if w - s.last_change_time < Q then
    ({ s with task_wake := some (w + Q) }, none)
  else
    ({ s with pending_broadcast := false, task_wake := none }, some w)

/-- `GitChangeHandler.cancel()`: prevent future broadcasts and cancel
the in-flight task. -/
def git_cancel (s : GitHandlerState) : GitHandlerState :=
  { s with stopped := true, pending_broadcast := false, task_wake := none }

/-- Timed run of the git handler: merge the (time-sorted) relevant
events with the wake-ups of the in-flight debounce task, processing
whichever comes first (a wake coinciding with an event is processed
first); emits the broadcast times.  `fuel` bounds the number of steps. -/
def gitSimGo (Q fuel : Nat) (events : List Nat) (s : GitHandlerState) :
    List Nat :=
  match fuel with
  | 0 => []
  | fuel' + 1 =>
    match s.task_wake with
    | none =>
      match events with
      | [] => []
      | t :: rest => gitSimGo Q fuel' rest (git_on_any_event Q t s)
    | some w =>
      match events with
      | t :: rest =>
        if t < w then gitSimGo Q fuel' rest (git_on_any_event Q t s)
        else
          let step := git_debounce_wake Q w s
          step.2.toList ++ gitSimGo Q fuel' (t :: rest) step.1
      | [] =>
        let step := git_debounce_wake Q w s
        step.2.toList ++ gitSimGo Q fuel' [] step.1

/-- Debounce behaviour of `GitChangeHandler` with quiet period `Q` ms
over timed relevant events, from a fresh handler. -/
def gitSim (Q : Nat) (events : List Nat) : List Nat :=
  gitSimGo Q (events.length + 64) events gitHandlerInit

/-! ### C3 and C6 -/

/-- C3 counterexample: for the burst at t = 0, 200, 400 ms with quiet
period 500 ms, the git watcher's settle fires at t = 1000 ms, not at
last-event-plus-quiet-period (900 ms): the insufficiently-settled check
of `_debounced_broadcast` sleeps a full new quiet period, not the
remaining wait. -/
theorem git_debounce_full_resleep_counterexample :
    gitSim 500 [0, 200, 400] = [1000] ∧ (1000 : Nat) ≠ 900 := by
  exact ⟨by decide, by decide⟩

/-- C3 amended: for the burst at t = 0, 200, 400 ms with quiet period
500 ms each variant fires exactly once; the file-watcher polling loop
(100 ms passes) fires at the first pass at least the quiet period after
the last event, t = 900 ms, while the git watcher - whose
insufficiently-settled check reschedules a full quiet period rather
than the remaining wait - fires at t = 1000 ms. -/
theorem debounce_settle_times_amended :
    codeSim 500 100 2000 [(0, "k"), (200, "k"), (400, "k")] = [(900, "k")] ∧
    gitSim 500 [0, 200, 400] = [1000] := by
  exact ⟨by decide, by decide⟩

/-- C6 counterexample: a burst touching the two distinct files "a" and
"b" under one watched root settles through `CodeFileHandler` as two
per-file events (two reindex/broadcasts), not as a single settle for
the root. -/
theorem per_file_debounce_counterexample :
    codeSim 500 100 2000 [(0, "a"), (0, "b")] = [(500, "a"), (500, "b")] ∧
    (codeSim 500 100 2000 [(0, "a"), (0, "b")]).length ≠ 1 := by
  exact ⟨by decide, by decide⟩

/-- Recording a batch of fresh file paths (none already pending, room
for all of them) through `_add_pending_change` appends one entry per
path, stamped with the event time, and evicts nothing. -/
theorem foldl_add_pending_fresh (fs : List String) (acc : List (String × Nat))
    (hnd : fs.Nodup) (hfresh : ∀ f ∈ fs, ∀ e ∈ acc, e.1 ≠ f)
    (hlen : acc.length + fs.length ≤ max_pending) :
    fs.foldl (fun a f => add_pending_change a f 0) acc =
      acc ++ fs.map (fun f => (f, (0 : Nat))) := by
  induction fs generalizing acc with
  | nil => simp
  | cons f fs' ih =>
    have hany : acc.any (fun p => decide (p.1 = f)) = false := by
      rw [← Bool.not_eq_true, List.any_eq_true]
      intro ⟨e, he, hef⟩
      exact hfresh f (List.mem_cons_self f fs') e he (of_decide_eq_true hef)
    have hstep : add_pending_change acc f 0 = acc ++ [(f, 0)] := by
      unfold add_pending_change add_pending_change_bounded
      rw [if_neg (by simp [hany])]
      have hroom : ¬ max_pending < (acc ++ [(f, 0)]).length := by
        rw [List.length_append, List.length_singleton]
        simp only [List.length_cons] at hlen
        omega
      rw [if_neg hroom]
    rw [List.foldl_cons, hstep, ih (acc ++ [(f, 0)]) (List.Nodup.of_cons hnd) ?_ ?_]
    · rw [List.append_assoc]
      rfl
    · intro g hg e he
      rcases List.mem_append.mp he with hea | hef
      · exact hfresh g (List.mem_cons_of_mem f hg) e hea
      · rw [List.mem_singleton.mp hef]
        intro hfg
        have hfg' : f = g := hfg
        exact (List.nodup_cons.mp hnd).1 (by rw [hfg']; exact hg)
    · rw [List.length_append, List.length_singleton]
      simp only [List.length_cons] at hlen
      omega

/-- A pass of the polling loop before the quiet period has elapsed
keeps a just-recorded pending map untouched and processes nothing. -/
theorem processTick_quiet (Q t : Nat) (fs : List String) (ht : ¬ Q ≤ t) :
    processTick Q t (fs.map (fun f => (f, (0 : Nat)))) =
      (fs.map (fun f => (f, (0 : Nat))), []) := by
  have hkeep : (fs.map (fun f => (f, (0 : Nat)))).filter
      (fun p => !(decide (Q ≤ t - p.2))) = fs.map (fun f => (f, (0 : Nat))) := by
    apply List.filter_eq_self.mpr
    intro p hp
    obtain ⟨f, _, rfl⟩ := List.mem_map.mp hp
    simp [ht]
  have hfire : (fs.map (fun f => (f, (0 : Nat)))).filter
      (fun p => decide (Q ≤ t - p.2)) = [] := by
    rw [List.filter_eq_nil_iff]
    intro p hp
    obtain ⟨f, _, rfl⟩ := List.mem_map.mp hp
    simp [ht]
  unfold processTick
  rw [hkeep, hfire]
  rfl

/-- A pass of the polling loop at or after the quiet period processes
every entry of a just-recorded pending map - one per file - and leaves
the map empty. -/
theorem processTick_fire (Q t : Nat) (fs : List String) (ht : Q ≤ t) :
    processTick Q t (fs.map (fun f => (f, (0 : Nat)))) = ([], fs) := by
  have hkeep : (fs.map (fun f => (f, (0 : Nat)))).filter
      (fun p => !(decide (Q ≤ t - p.2))) = [] := by
    rw [List.filter_eq_nil_iff]
    intro p hp
    obtain ⟨f, _, rfl⟩ := List.mem_map.mp hp
    simp [ht]
  have hfire : (fs.map (fun f => (f, (0 : Nat)))).filter
      (fun p => decide (Q ≤ t - p.2)) = fs.map (fun f => (f, (0 : Nat))) := by
    apply List.filter_eq_self.mpr
    intro p hp
    obtain ⟨f, _, rfl⟩ := List.mem_map.mp hp
    simp [ht]
  unfold processTick
  rw [hkeep, hfire, List.map_map]
  simp only [Function.comp_def, List.map_id']

/-- With no events and nothing pending, the polling loop emits nothing. -/
theorem codeSimGo_no_events_empty (Q : Nat) (ticks : List Nat) :
    codeSimGo Q ticks [] [] = [] := by
  induction ticks with
  | nil => rfl
  | cons t rest ih => simp [codeSimGo, processTick, ih]

/-- The tick that receives a simultaneous burst of distinct fresh files
records one pending entry per file and fires nothing yet. -/
theorem codeSimGo_first_tick (rest : List Nat) (fs : List String)
    (hnd : fs.Nodup) (hlen : fs.length ≤ max_pending) :
    codeSimGo 500 (0 :: rest) (fs.map (fun f => ((0 : Nat), f))) [] =
      codeSimGo 500 rest [] (fs.map (fun f => (f, (0 : Nat)))) := by
  have hevNow : (fs.map (fun f => ((0 : Nat), f))).filter
      (fun e => decide (e.1 ≤ 0)) = fs.map (fun f => ((0 : Nat), f)) := by
    apply List.filter_eq_self.mpr
    intro e he
    obtain ⟨f, _, rfl⟩ := List.mem_map.mp he
    simp
  have hevLater : (fs.map (fun f => ((0 : Nat), f))).filter
      (fun e => !(decide (e.1 ≤ 0))) = [] := by
    rw [List.filter_eq_nil_iff]
    intro e he
    obtain ⟨f, _, rfl⟩ := List.mem_map.mp he
    simp
  have hfold : (fs.map (fun f => ((0 : Nat), f))).foldl
      (fun acc e => add_pending_change acc e.2 e.1) [] =
      fs.map (fun f => (f, (0 : Nat))) := by
    rw [List.foldl_map]
    exact foldl_add_pending_fresh fs [] hnd
      (fun f _ e he => absurd he (List.not_mem_nil e)) (by simpa using hlen)
  simp only [codeSimGo]
  rw [hevNow, hevLater, hfold, processTick_quiet 500 0 fs (by omega)]
  simp

/-- A quiet pass (before the quiet period has elapsed) changes nothing. -/
theorem codeSimGo_quiet_tick (t : Nat) (rest : List Nat) (fs : List String)
    (ht : ¬ 500 ≤ t) :
    codeSimGo 500 (t :: rest) [] (fs.map (fun f => (f, (0 : Nat)))) =
      codeSimGo 500 rest [] (fs.map (fun f => (f, (0 : Nat)))) := by
  simp only [codeSimGo, List.filter_nil, List.foldl_nil]
  rw [processTick_quiet 500 t fs ht]
  simp

/-- The first pass at or after the quiet period settles every pending
file, one per-file event each, and empties the map. -/
theorem codeSimGo_fire_tick (t : Nat) (rest : List Nat) (fs : List String)
    (ht : 500 ≤ t) :
    codeSimGo 500 (t :: rest) [] (fs.map (fun f => (f, (0 : Nat)))) =
      fs.map (fun f => (t, f)) ++ codeSimGo 500 rest [] [] := by
  simp only [codeSimGo, List.filter_nil, List.foldl_nil]
  rw [processTick_fire 500 t fs ht]

/-- The file watcher settles a simultaneous burst over any
duplicate-free list of files (within the pending cap) once per file:
each file gets its own settle at the first pass at least the quiet
period after the burst, t = 500 ms. -/
theorem codeSim_burst_per_file (fs : List String) (hnd : fs.Nodup)
    (hlen : fs.length ≤ max_pending) :
    codeSim 500 100 2000 (fs.map (fun f => ((0 : Nat), f))) =
      fs.map (fun f => ((500 : Nat), f)) := by
  unfold codeSim
  have hticks : codeTicks 100 2000 =
      [0, 100, 200, 300, 400, 500, 600, 700, 800, 900, 1000, 1100, 1200,
       1300, 1400, 1500, 1600, 1700, 1800, 1900, 2000] := by decide
  rw [hticks, codeSimGo_first_tick _ fs hnd hlen,
    codeSimGo_quiet_tick 100 _ fs (by omega),
    codeSimGo_quiet_tick 200 _ fs (by omega),
    codeSimGo_quiet_tick 300 _ fs (by omega),
    codeSimGo_quiet_tick 400 _ fs (by omega),
    codeSimGo_fire_tick 500 _ fs (by omega),
    codeSimGo_no_events_empty, List.append_nil]

/-- Once the git handler is saturated at the state a burst at t = 0
produces (pending, task waking at 500), any number of further
simultaneous events leaves it unchanged, and the single broadcast fires
at t = 500. -/
theorem gitSimGo_saturated (k : Nat) :
    ∀ fuel : Nat, k + 2 ≤ fuel →
      gitSimGo 500 fuel (List.replicate k 0)
        ⟨0, true, false, some 500⟩ = [500] := by
  induction k with
  | zero =>
    intro fuel hfuel
    obtain ⟨f, rfl⟩ : ∃ f, fuel = f + 1 := ⟨fuel - 1, by omega⟩
    obtain ⟨f', rfl⟩ : ∃ f', f = f' + 1 := ⟨f - 1, by omega⟩
    rfl
  | succ k' ih =>
    intro fuel hfuel
    obtain ⟨f, rfl⟩ : ∃ f, fuel = f + 1 := ⟨fuel - 1, by omega⟩
    rw [List.replicate_succ]
    have hstep : gitSimGo 500 (f + 1) (0 :: List.replicate k' 0)
        ⟨0, true, false, some 500⟩ =
        gitSimGo 500 f (List.replicate k' 0) ⟨0, true, false, some 500⟩ := rfl
    rw [hstep]
    exact ih f (by omega)

/-- The git watcher settles any simultaneous burst of one or more
relevant events - from however many distinct files - as exactly one
broadcast, at t = 500 ms. -/
theorem gitSim_burst_single (n : Nat) (hn : 1 ≤ n) :
    gitSim 500 (List.replicate n 0) = [500] := by
  obtain ⟨m, rfl⟩ : ∃ m, n = m + 1 := ⟨n - 1, by omega⟩
  unfold gitSim
  have hlen : (List.replicate (m + 1) (0 : Nat)).length + 64 = (m + 64) + 1 := by
    rw [List.length_replicate]
  rw [hlen, List.replicate_succ]
  have hstep : gitSimGo 500 ((m + 64) + 1) (0 :: List.replicate m 0)
      gitHandlerInit =
      gitSimGo 500 (m + 64) (List.replicate m 0)
        ⟨0, true, false, some 500⟩ := rfl
  rw [hstep]
  exact gitSimGo_saturated m (m + 64) (by omega)

/-- C6 amended: only the git watcher debounces keyed by the watch root:
a simultaneous burst of n ≥ 1 relevant events under one repository
root - from however many distinct files - settles as a single
broadcast.  The file watcher debounces per individual file path: a
simultaneous burst touching the distinct files of any duplicate-free
list (within the 1000-entry pending cap) under one watched root
settles once per file - one reindex/broadcast each - not once for the
root. -/
theorem debounce_keying_amended (n : Nat) (fs : List String) (hn : 1 ≤ n)
    (hnd : fs.Nodup) (hlen : fs.length ≤ max_pending) :
    gitSim 500 (List.replicate n 0) = [500] ∧
    codeSim 500 100 2000 (fs.map (fun f => ((0 : Nat), f))) =
      fs.map (fun f => ((500 : Nat), f)) ∧
    (codeSim 500 100 2000 (fs.map (fun f => ((0 : Nat), f)))).length =
      fs.length := by
  refine ⟨gitSim_burst_single n hn, codeSim_burst_per_file fs hnd hlen, ?_⟩
  rw [codeSim_burst_per_file fs hnd hlen, List.length_map]

/-- Witness for the amended C6 at a concrete two-file burst. -/
theorem debounce_keying_amended_witness :
    gitSim 500 (List.replicate 2 0) = [500] ∧
    codeSim 500 100 2000 (["a", "b"].map (fun f => ((0 : Nat), f))) =
      ["a", "b"].map (fun f => ((500 : Nat), f)) := by
  have h := debounce_keying_amended 2 ["a", "b"] (by decide) (by decide)
    (by decide)
  exact ⟨h.1, h.2.1⟩

/-! ### Stop idempotence of the watcher services (C9) -/

/-- Externally relevant state of `FileWatcherService` together with its
embedded `CodeFileHandler`: the watching flag and whether the handler's
processor thread is still running. -/
structure FileWatcherServiceState where
  watching : Bool
  handler_running : Bool
deriving DecidableEq, Repr

/-- `FileWatcherService.stop_watching()`: when watching, stop and join
the observer thread, call `handler.stop()` (which joins the processor
thread only if it is still running), and clear the flag; otherwise do
nothing.  The second component counts thread-join attempts made by the
call. -/
def fw_stop_watching (s : FileWatcherServiceState) :
    FileWatcherServiceState × Nat :=
  if s.watching then
    (⟨false, false⟩, 1 + (if s.handler_running then 1 else 0))
  else (s, 0)

/-- Externally relevant state of `GitWatcherService`: the observer and
handler references (dropped on stop), the watching flag and the
remembered path. -/
structure GitWatcherServiceState where
  observer : Option Unit
  handler : Option GitHandlerState
  watching : Bool
  watched_path : Option String
deriving DecidableEq, Repr

/-- `GitWatcherService.stop_watching()`: cancel pending broadcasts on
the handler if one exists, stop and join the observer if one exists
(errors are logged, never raised), then drop both references and clear
the flag.  The second component counts thread-join attempts made by the
call. -/
def gw_stop_watching (s : GitWatcherServiceState) :
    GitWatcherServiceState × Nat :=
  (⟨none, none, false, s.watched_path⟩,
   match s.observer with | some _ => 1 | none => 0)

/-- C9: `stop_watching()` is idempotent for both watcher services: from
any state, a second call after a first stop performs no thread-join
attempt, raises nothing (both models are total functions), and leaves
the state exactly as the first stop left it. -/
theorem stop_watching_idempotent (s1 : FileWatcherServiceState)
    (s2 : GitWatcherServiceState) :
    fw_stop_watching (fw_stop_watching s1).1 = ((fw_stop_watching s1).1, 0) ∧
    gw_stop_watching (gw_stop_watching s2).1 = ((gw_stop_watching s2).1, 0) := by
  refine ⟨?_, rfl⟩
  by_cases h : s1.watching <;> simp [fw_stop_watching, h]

/-! ## SessionManager (src/backend/services/session_manager.py)

`SessionManager` keeps `_sessions : Dict[str, dict]`, mapping a client
id to `{"status": <GitStatusResponse>, "timestamp": <last touch>}`.
Client ids and the cached status payload are abstract (no covered code
path inspects the payload); the dict is an association list with
distinct keys - dict insertion order never matters in this class, since
every operation is keyed or sorts by timestamp. -/

/-- `SESSION_TTL = 300` seconds. -/
def SESSION_TTL : Nat := 300

/-- `MAX_SESSIONS = 1000`. -/
def MAX_SESSIONS : Nat := 1000

/-- One session record: the cached status payload and its last-touched
time (seconds). -/
structure SessionEntry where
  status : Nat
  timestamp : Nat
deriving DecidableEq, Repr

/-- The `_sessions` map. -/
abbrev Sessions := List (Nat × SessionEntry)

/-- `get_cached_status(client_id)`: a missing session yields None; an
expired one (strictly older than the TTL) is deleted as a side effect
and yields None; a fresh one yields its cached status and leaves the
map untouched.  Returns (result, updated map). -/
def get_cached_status (now : Nat) (s : Sessions) (cid : Nat) :
    Option Nat × Sessions :=
  match s.find? (fun p => decide (p.1 = cid)) with
  | none => (none, s)
  | some p =>
    if SESSION_TTL < now - p.2.timestamp then
      (none, s.filter (fun q => !(decide (q.1 = cid))))
    else (some p.2.status, s)

/-- `cleanup_expired()`: drop every session strictly older than the TTL. -/
def cleanup_expired (now : Nat) (s : Sessions) : Sessions :=
  s.filter (fun p => !(decide (SESSION_TTL < now - p.2.timestamp)))

/-- The sort key of the eviction pass:
`sorted(self._sessions.items(), key=lambda x: x[1]["timestamp"])`. -/
def tsLe (a b : Nat × SessionEntry) : Prop := a.2.timestamp ≤ b.2.timestamp

instance : DecidableRel tsLe := fun a b => Nat.decLe a.2.timestamp b.2.timestamp

instance : IsTotal (Nat × SessionEntry) tsLe :=
  ⟨fun a b => Nat.le_total a.2.timestamp b.2.timestamp⟩

instance : IsTrans (Nat × SessionEntry) tsLe := ⟨fun _ _ _ => Nat.le_trans⟩

/-- The sessions in ascending last-touched order (Python's `sorted` is
stable; insertion sort is as well). -/
def sortByTs (s : Sessions) : Sessions := List.insertionSort tsLe s

/-- The client ids removed by the oldest-10% eviction pass:
the first `max(1, len // 10)` of the timestamp-sorted items. -/
def victim_keys (s : Sessions) : List Nat :=
  ((sortByTs s).take (max 1 (s.length / 10))).map Prod.fst

/-- The oldest-10% eviction pass of `update_cache`: delete each victim
key from the map. -/
def evict_oldest (s : Sessions) : Sessions :=
  s.filter (fun p => !(decide (p.1 ∈ victim_keys s)))

/-- `update_cache(client_id, status)`: when the session count is at the
hard cap, first purge expired entries; if still at the cap, evict the
oldest 10% by last-touched time; then insert or overwrite the entry
with the current time. -/
def update_cache (now : Nat) (s : Sessions) (cid : Nat) (st : Nat) : Sessions :=
  let s1 := if MAX_SESSIONS ≤ s.length then cleanup_expired now s else s
  let s2 := if MAX_SESSIONS ≤ s1.length then evict_oldest s1 else s1
  s2.filter (fun p => !(decide (p.1 = cid))) ++ [(cid, ⟨st, now⟩)]

/-- `get_session_count()`. -/
def get_session_count (s : Sessions) : Nat := s.length

/-- In the eviction pass, no surviving session is older than any
evicted one: every victim's last-touched time is at most every
survivor's. -/
theorem victim_keys_oldest (s' : Sessions) (hnd : (s'.map Prod.fst).Nodup) :
    ∀ p ∈ s', p.1 ∈ victim_keys s' → ∀ q ∈ s', q.1 ∉ victim_keys s' →
      p.2.timestamp ≤ q.2.timestamp := by
  intro p hp hpv q hq hqv
  have hperm : List.Perm (List.insertionSort tsLe s') s' :=
    List.perm_insertionSort tsLe s'
  have hsorted : List.Sorted tsLe (List.insertionSort tsLe s') :=
    List.sorted_insertionSort tsLe s'
  have hndsorted : ((List.insertionSort tsLe s').map Prod.fst).Nodup :=
    ((hperm.map Prod.fst).nodup_iff).mpr hnd
  obtain ⟨r, hrtake, hrp⟩ := List.mem_map.mp hpv
  have hrsorted : r ∈ List.insertionSort tsLe s' := List.take_subset _ _ hrtake
  have hpsorted : p ∈ List.insertionSort tsLe s' := hperm.mem_iff.mpr hp
  have hrpeq : r = p :=
    List.inj_on_of_nodup_map hndsorted hrsorted hpsorted hrp
  have hptake : p ∈ (List.insertionSort tsLe s').take (max 1 (s'.length / 10)) :=
    hrpeq ▸ hrtake
  have hqsorted : q ∈ List.insertionSort tsLe s' := hperm.mem_iff.mpr hq
  have hqdrop : q ∈ (List.insertionSort tsLe s').drop (max 1 (s'.length / 10)) := by
    have hsplit := List.take_append_drop (max 1 (s'.length / 10))
      (List.insertionSort tsLe s')
    rcases List.mem_append.mp (hsplit ▸ hqsorted) with hqt | hqd
    · exact absurd (List.mem_map_of_mem Prod.fst hqt) hqv
    · exact hqd
  have hcross : ∀ a ∈ (List.insertionSort tsLe s').take (max 1 (s'.length / 10)),
      ∀ b ∈ (List.insertionSort tsLe s').drop (max 1 (s'.length / 10)), tsLe a b := by
    have hpw : ((List.insertionSort tsLe s').take (max 1 (s'.length / 10)) ++
        (List.insertionSort tsLe s').drop (max 1 (s'.length / 10))).Pairwise tsLe := by
      rw [List.take_append_drop]
      exact hsorted
    exact (List.pairwise_append.mp hpw).2.2
  exact hcross p hptake q hqdrop

/-- The eviction pass removes at least one session from a map at the
cap. -/
theorem evict_oldest_shrinks (s' : Sessions) (hne : s' ≠ []) :
    (evict_oldest s').length < s'.length := by
  have hperm : List.Perm (List.insertionSort tsLe s') s' :=
    List.perm_insertionSort tsLe s'
  have hsne : List.insertionSort tsLe s' ≠ [] := by
    intro h
    rw [h] at hperm
    exact hne hperm.symm.eq_nil
  obtain ⟨v, rest, hvr⟩ := List.exists_cons_of_ne_nil hsne
  have hvtake : v ∈ (List.insertionSort tsLe s').take (max 1 (s'.length / 10)) := by
    obtain ⟨m, hm⟩ : ∃ m, max 1 (s'.length / 10) = m + 1 := by
      have : 1 ≤ max 1 (s'.length / 10) := le_max_left 1 _
      exact ⟨max 1 (s'.length / 10) - 1, by omega⟩
    rw [hvr, hm, List.take_succ_cons]
    exact List.mem_cons_self v _
  have hvv : v.1 ∈ victim_keys s' := List.mem_map_of_mem Prod.fst hvtake
  have hvmem : v ∈ s' := hperm.mem_iff.mp (hvr ▸ List.mem_cons_self v rest)
  exact length_filter_lt_of_mem s' _ v hvmem
    (by simp only [Bool.not_eq_true', decide_eq_true hvv, Bool.not_true])

/-- `update_cache` always ends by inserting or overwriting the client's
entry, stamped with the current time, at the end of the map. -/
theorem update_cache_appends (now : Nat) (s : Sessions) (cid st : Nat) :
    ∃ l, update_cache now s cid st = l ++ [(cid, ⟨st, now⟩)] :=
  ⟨_, rfl⟩

/-- C8: `update_cache` on a duplicate-free session map within the cap:
the resulting map still respects the cap (when the map is at the cap,
the expired-purge and oldest-10% eviction make room first), the entry
for the client is inserted / overwritten with the current time at the
end, and the eviction pass only ever removes sessions whose
last-touched time is at most that of every surviving session. -/
theorem update_cache_bounded (now : Nat) (s : Sessions) (cid st : Nat)
    (hlen : s.length ≤ MAX_SESSIONS) :
    (update_cache now s cid st).length ≤ MAX_SESSIONS ∧
    (∃ l, update_cache now s cid st = l ++ [(cid, ⟨st, now⟩)]) ∧
    (∀ s' : Sessions, (s'.map Prod.fst).Nodup →
      ∀ p ∈ s', p.1 ∈ victim_keys s' → ∀ q ∈ s', q.1 ∉ victim_keys s' →
        p.2.timestamp ≤ q.2.timestamp) := by
  refine ⟨?_, update_cache_appends now s cid st, victim_keys_oldest⟩
  show ((if MAX_SESSIONS ≤
      (if MAX_SESSIONS ≤ s.length then cleanup_expired now s else s).length then
      evict_oldest (if MAX_SESSIONS ≤ s.length then cleanup_expired now s else s)
    else (if MAX_SESSIONS ≤ s.length then cleanup_expired now s else s)).filter
      (fun p : Nat × SessionEntry => !(decide (p.1 = cid))) ++
      [(cid, SessionEntry.mk st now)]).length ≤ MAX_SESSIONS
  set s1 := if MAX_SESSIONS ≤ s.length then cleanup_expired now s else s with hs1
  have h1 : s1.length ≤ s.length := by
    rw [hs1]
    by_cases h : MAX_SESSIONS ≤ s.length
    · rw [if_pos h]
      exact List.length_filter_le _ s
    · rw [if_neg h]
  rw [List.length_append, List.length_singleton]
  by_cases h2 : MAX_SESSIONS ≤ s1.length
  · rw [if_pos h2]
    have hne : s1 ≠ [] := by
      intro h
      rw [h] at h2
      simp [MAX_SESSIONS] at h2
    have hshrink := evict_oldest_shrinks s1 hne
    have hfl := List.length_filter_le (fun p => !(decide (p.1 = cid)))
      (evict_oldest s1)
    omega
  · rw [if_neg h2]
    have hfl := List.length_filter_le (fun p => !(decide (p.1 = cid))) s1
    omega

/-- Witness for C8 on a concrete map. -/
theorem update_cache_bounded_witness :
    (update_cache 400 [(1, ⟨5, 10⟩)] 2 9).length ≤ MAX_SESSIONS ∧
    (∃ l, update_cache 400 [(1, ⟨5, 10⟩)] 2 9 = l ++ [(2, ⟨9, 400⟩)]) := by
  have h := update_cache_bounded 400 [(1, ⟨5, 10⟩)] 2 9 (by decide)
  exact ⟨h.1, h.2.1⟩

/-- C10: a read of the session cache mutates it exactly on expiry: for
a client whose session is strictly older than the TTL,
`get_cached_status` deletes that session (the session count drops by
one); for a missing client id or a fresh session the map is returned
entirely unchanged, with the cached status in the fresh case. -/
theorem get_cached_status_lazy_expiry (now : Nat) (s : Sessions) (cid : Nat)
    (hnd : (s.map Prod.fst).Nodup) :
    (∀ p, s.find? (fun e => decide (e.1 = cid)) = some p →
      SESSION_TTL < now - p.2.timestamp →
      get_cached_status now s cid =
        (none, s.filter (fun q => !(decide (q.1 = cid)))) ∧
      get_session_count (s.filter (fun q => !(decide (q.1 = cid)))) + 1 =
        get_session_count s) ∧
    (s.find? (fun e => decide (e.1 = cid)) = none →
      get_cached_status now s cid = (none, s)) ∧
    (∀ p, s.find? (fun e => decide (e.1 = cid)) = some p →
      ¬(SESSION_TTL < now - p.2.timestamp) →
      get_cached_status now s cid = (some p.2.status, s)) := by
  refine ⟨?_, ?_, ?_⟩
  · intro p hfind hexp
    constructor
    · unfold get_cached_status
      rw [hfind]
      show (if SESSION_TTL < now - p.2.timestamp then
          ((none : Option Nat), s.filter (fun q => !(decide (q.1 = cid))))
        else (some p.2.status, s)) =
        (none, s.filter (fun q => !(decide (q.1 = cid))))
      rw [if_pos hexp]
    · have hmem : p ∈ s := List.mem_of_find?_eq_some hfind
      have hkeyb := List.find?_some hfind
      have hkey : p.1 = cid := of_decide_eq_true hkeyb
      exact length_filter_keyne_of_nodup s cid hnd ⟨p, hmem, hkey⟩
  · intro hfind
    unfold get_cached_status
    rw [hfind]
  · intro p hfind hfresh
    unfold get_cached_status
    rw [hfind]
    show (if SESSION_TTL < now - p.2.timestamp then
        ((none : Option Nat), s.filter (fun q => !(decide (q.1 = cid))))
      else (some p.2.status, s)) = (some p.2.status, s)
    rw [if_neg hfresh]

/-- Witness for C10: an expired session is deleted by the read. -/
theorem get_cached_status_lazy_expiry_witness :
    get_cached_status 1000 [(7, ⟨42, 0⟩)] 7 = (none, ([] : Sessions)) ∧
    get_session_count ([] : Sessions) + 1 =
      get_session_count ([(7, ⟨42, 0⟩)] : Sessions) := by
  have h := (get_cached_status_lazy_expiry 1000 [(7, ⟨42, 0⟩)] 7 (by decide)).1
    (7, ⟨42, 0⟩) (by decide) (by decide)
  exact ⟨h.1.trans (by decide), by simpa using h.2⟩

end GodotBackend
